import Mathlib

/-!
Verification of the ATtiny13 TinyRemote firmware
(src/software/NEC_5_buttons/main.c) against its specification.

The firmware modulates an IR LED: software toggles the carrier on and off
for precise durations.  We embed the observable behaviour as a trace of
events, each an interval during which the 38 kHz carrier is on or off,
measured in microseconds.  Pure timing delays (debounce, inter-repeat
delays) also appear as carrier-off intervals, which is exactly what the
IR line shows during them.
-/

set_option maxRecDepth 4000

namespace TinyRemote

/-- One observable interval on the IR line: carrier on for a number of
microseconds, or carrier off for a number of microseconds. -/
inductive Ev
  | on (us : Nat)
  | off (us : Nat)
  deriving DecidableEq, Repr

/-- Device address of the LG TV (main.c line 66, `#define ADDR 0x04`). -/
def ADDR : Nat := 0x04

/-- Volume+ command (main.c line 67). -/
def KEY1 : Nat := 0x02

/-- Channel+ command (main.c line 68). -/
def KEY2 : Nat := 0x00

/-- Volume- command (main.c line 69). -/
def KEY3 : Nat := 0x03

/-- Channel- command (main.c line 70). -/
def KEY4 : Nat := 0x01

/-- Power command (main.c line 71). -/
def KEY5 : Nat := 0x08

/-- PWM period register value (main.c line 74, `#define TOP 31`). -/
def TOP : Nat := 31

/-- PWM compare register value (main.c line 75, `#define DUTY 7`). -/
def DUTY : Nat := 7

/-- Trace of `startPulse()` (main.c line 82):
carrier on 9000 us, then off 4500 us. -/
def startPulse : List Ev := [.on 9000, .off 4500]

/-- Trace of `repeatPulse()` (main.c line 83):
carrier on 9000 us, then off 2250 us. -/
def repeatPulse : List Ev := [.on 9000, .off 2250]

/-- Trace of `normalPulse()` (main.c line 84):
carrier on 562 us, then off 557 us. -/
def normalPulse : List Ev := [.on 562, .off 557]

/-- Trace of `bit1Pause()` (main.c line 85): extra 1120 us of carrier off. -/
def bit1Pause : List Ev := [.off 1120]

/-- Trace of `repeatCode()` (main.c line 86): 40 ms delay, repeat pulse,
stop burst, 56 ms delay. -/
def repeatCode : List Ev :=
  [.off 40000] ++ repeatPulse ++ (normalPulse ++ [.off 56000])

/-- The loop body of `sendByte` (main.c lines 91-94).  The C loop
`for (uint8_t i=8; i; i--, value>>=1)` runs its body with the counter at
8,7,...,1; each iteration emits `normalPulse()`, extends the pause by
`bit1Pause()` when `value & 1` is set, and then shifts `value` right. -/
def sendByteAux : Nat → Nat → List Ev
  | 0, _ => []
  | i + 1, value =>
      (normalPulse ++ (if value &&& 1 ≠ 0 then bit1Pause else [])) ++
        sendByteAux i (value >>> 1)

/-- Trace of `sendByte(value)` (main.c lines 90-95): 8 bits, LSB first. -/
def sendByte (value : Nat) : List Ev := sendByteAux 8 value

/-- The C expression `(uint8_t)(~x)`: `~` acts on the int promotion of `x`
giving `-(x+1)`, and the conversion back to `uint8_t` reduces modulo 256
(main.c lines 101 and 103 pass `~ADDR` and `~code` to `sendByte`). -/
def cInv8 (x : Nat) : Nat := ((-(x + 1 : Int)) % 256).toNat

/-- Trace of `sendCode(code)` (main.c lines 98-105): start pulse, address
byte, inverted address byte, code byte, inverted code byte, stop burst. -/
def sendCode (code : Nat) : List Ev :=
  startPulse ++ (sendByte ADDR ++ (sendByte (cInv8 ADDR) ++
    (sendByte code ++ (sendByte (cInv8 code) ++ normalPulse))))

/-- The button read `~PINB & 0b00111101` (main.c lines 139 and 148).
`PINB` is an 8-bit register, so its value is reduced modulo 256; `~` flips
its bits and the mask keeps the five button lines (pressed = bit set,
since buttons pull their line low). -/
def scan (pinb : Nat) : Nat := ((pinb % 256) ^^^ 0xFF) &&& 0b00111101

/-- The `switch (buttons)` dispatch (main.c lines 140-147): each of the
five single-button masks sends one code, anything else sends nothing. -/
def switchEmit (buttons : Nat) : List Ev :=
  if buttons = 0b00000001 then sendCode KEY1
  else if buttons = 0b00000100 then sendCode KEY2
  else if buttons = 0b00001000 then sendCode KEY3
  else if buttons = 0b00010000 then sendCode KEY4
  else if buttons = 0b00100000 then sendCode KEY5
  else []

/-- The repeat loop `while (~PINB & 0b00111101) repeatCode();`
(main.c line 148), driven by the successive values the `PINB` register
shows at each test of the loop condition. -/
def repeatLoop : List Nat → List Ev
  | [] => []
  | p :: rest => if scan p ≠ 0 then repeatCode ++ repeatLoop rest else []

/-! ### Observation functions on traces -/

/-- Number of carrier-on bursts in a trace. -/
def onCount : List Ev → Nat
  | [] => 0
  | .on _ :: rest => onCount rest + 1
  | .off _ :: rest => onCount rest

/-- Total duration of a trace in microseconds. -/
def duration : List Ev → Nat
  | [] => 0
  | .on d :: rest => d + duration rest
  | .off d :: rest => d + duration rest

/-- Group a trace into pulses: each carrier-on burst paired with the total
carrier-off time that follows it before the next burst. -/
def pulseGroups : List Ev → List (Nat × Nat)
  | .on d :: .off p :: .off q :: rest => (d, p + q) :: pulseGroups rest
  | .on d :: .off p :: rest => (d, p) :: pulseGroups rest
  | .on d :: rest => (d, 0) :: pulseGroups rest
  | .off _ :: rest => pulseGroups rest
  | [] => []

/-- Decode NEC data bits from a pulse-group list: a 562 us burst with a
557 us pause is a 0 bit, a 562 us burst with a 557+1120 us pause is a
1 bit; any other group is framing, not data. -/
def bitsOfGroups : List (Nat × Nat) → List Bool
  | [] => []
  | g :: rest =>
      if g = (562, 557) then false :: bitsOfGroups rest
      else if g = (562, 1677) then true :: bitsOfGroups rest
      else bitsOfGroups rest

/-- Value of a bit list read least-significant-bit first. -/
def byteVal : List Bool → Nat
  | [] => 0
  | b :: rest => (if b then 1 else 0) + 2 * byteVal rest

/-- The data bits of a full frame for command `c`, in transmission order
(the terminal stop burst parses as one trailing group and is dropped by
taking the first 32 bits). -/
def frameBits (c : Nat) : List Bool := bitsOfGroups (pulseGroups (sendCode c))

/-- The four byte values carried by the frame for command `c`. -/
def frameBytes (c : Nat) : List Nat :=
  [byteVal ((frameBits c).take 8),
   byteVal (((frameBits c).drop 8).take 8),
   byteVal (((frameBits c).drop 16).take 8),
   byteVal (((frameBits c).drop 24).take 8)]

/-- Start time and duration of every carrier-on burst of a trace, the
first argument being the time at which the trace begins. -/
def timedBursts : List Ev → Nat → List (Nat × Nat)
  | [], _ => []
  | .on d :: rest, t => (t, d) :: timedBursts rest (t + d)
  | .off d :: rest, t => timedBursts rest (t + d)

/-- Start times of the 9000 us lead bursts of a trace, measured from the
beginning of the trace. -/
def markerStarts (tr : List Ev) : List Nat :=
  (timedBursts tr 0).filterMap (fun b => if b.2 = 9000 then some b.1 else none)

/-! ### Frame encoder modelled from the spec, for refinement

These definitions follow the specification text (section 4.2): bits are
encoded burst-then-pause, bytes least-significant-bit first, and a frame
is start marker, address, bitwise complement of address, command, bitwise
complement of command, stop burst.  Durations are instantiated with the
firmware's compensated constants. -/

/-- Modelled from the spec: one data bit, a burst followed by a pause,
the pause extended exactly when the bit is 1. -/
def specBit (b : Bool) : List Ev :=
  [.on 562, .off 557] ++ (if b then [.off 1120] else [])

/-- Modelled from the spec: a byte as its eight bits, LSB first. -/
def specByte (v : Nat) : List Ev :=
  ((List.range 8).map (fun i => specBit (v.testBit i))).flatten

/-- Modelled from the spec: a full frame, start marker, the four data
bytes with bitwise-complement inverses, and a single terminal stop burst
with nothing after it. -/
def specFrame (addr cmd : Nat) : List Ev :=
  [.on 9000, .off 4500] ++ specByte addr ++ specByte (addr ^^^ 0xFF) ++
    specByte cmd ++ specByte (cmd ^^^ 0xFF) ++ [.on 562, .off 557]

/-! ### The main loop as a step machine

`main` (lines 136-149) is an infinite loop: sleep until a pin-change
interrupt fires, wait 1 ms to debounce, read the buttons and dispatch the
switch, then run the repeat loop until the buttons read idle, and go back
to sleep.  Each step consumes one external input: the current `PINB`
value and whether a pin-change edge occurred.  `sleep_mode()` returning
only on a pin-change interrupt is modelled from the spec (the sleep and
interrupt machinery is AVR library/hardware behaviour): in state
`sleeping` nothing happens until an input with an edge arrives. -/

/-- External input visible to one step of the main loop. -/
structure Input where
  pinb : Nat
  edge : Bool
  deriving DecidableEq, Repr

/-- Control position inside the main loop body. -/
inductive Mode
  | sleeping
  | debouncing
  | dispatching
  | repeating
  deriving DecidableEq, Repr

/-- One step of the main loop: what it emits and where control goes. -/
def step : Mode → Input → Mode × List Ev
  | .sleeping, i => if i.edge then (.debouncing, []) else (.sleeping, [])
  | .debouncing, _ => (.dispatching, [.off 1000])
  | .dispatching, i => (.repeating, switchEmit (scan i.pinb))
  | .repeating, i =>
      if scan i.pinb ≠ 0 then (.repeating, repeatCode) else (.sleeping, [])

/-- Run the main loop over a finite prefix of the input stream,
collecting the emitted trace. -/
def runSteps : Mode → List Input → Mode × List Ev
  | m, [] => (m, [])
  | m, i :: rest =>
      let s := step m i
      let r := runSteps s.1 rest
      (r.1, s.2 ++ r.2)

/-! ### Basic trace lemmas -/

theorem onCount_append (a b : List Ev) :
    onCount (a ++ b) = onCount a + onCount b := by
  induction a with
  | nil => simp [onCount]
  | cons x rest ih =>
      rcases x with d | d
      · simp [onCount, ih]; omega
      · simp [onCount, ih]

theorem onCount_sendByteAux (n v : Nat) : onCount (sendByteAux n v) = n := by
  induction n generalizing v with
  | zero => rfl
  | succ n ih =>
      rcases Nat.mod_two_eq_zero_or_one v with h | h <;>
        simp [sendByteAux, Nat.and_one_is_mod, h, onCount_append, onCount,
          normalPulse, bit1Pause, ih]

theorem switchEmit_unmapped {b : Nat} (h : b ∉ ([1, 4, 8, 16, 32] : List Nat)) :
    switchEmit b = [] := by
  simp only [List.mem_cons, List.not_mem_nil, or_false, not_or] at h
  obtain ⟨h1, h2, h3, h4, h5⟩ := h
  simp [switchEmit, h1, h2, h3, h4, h5]

/-! ### Pulse-group structure of bytes and frames -/

/-- Traces that do not begin with a carrier-off event. -/
def headOn : List Ev → Prop
  | Ev.off _ :: _ => False
  | _ => True

theorem pulseGroups_on_off (a b : Nat) (t : List Ev) (ht : headOn t) :
    pulseGroups (Ev.on a :: Ev.off b :: t) = (a, b) :: pulseGroups t := by
  match t with
  | [] => rfl
  | Ev.on c :: t2 => rfl
  | Ev.off c :: t2 => simp [headOn] at ht

theorem pulseGroups_on_off_off (a b c : Nat) (t : List Ev) :
    pulseGroups (Ev.on a :: Ev.off b :: Ev.off c :: t) =
      (a, b + c) :: pulseGroups t := rfl

theorem headOn_sendByteAux_append (n v : Nat) (r : List Ev) (hr : headOn r) :
    headOn (sendByteAux n v ++ r) := by
  cases n with
  | zero => simpa [sendByteAux] using hr
  | succ n =>
      rcases Nat.mod_two_eq_zero_or_one v with h | h <;>
        simp [sendByteAux, Nat.and_one_is_mod, h, normalPulse, bit1Pause, headOn]

theorem pulseGroups_sendByteAux (n : Nat) (r : List Ev) (hr : headOn r) :
    ∀ v, pulseGroups (sendByteAux n v ++ r) =
      (List.range n).map (fun i => (562, if v.testBit i then 1677 else 557)) ++
        pulseGroups r := by
  induction n with
  | zero => intro v; simp [sendByteAux]
  | succ n ih =>
      intro v
      rw [List.range_succ_eq_map]
      rcases Nat.mod_two_eq_zero_or_one v with h | h
      · have hb : v.testBit 0 = false := by simp [Nat.testBit_zero, h]
        have hs : sendByteAux (n + 1) v ++ r =
            Ev.on 562 :: Ev.off 557 :: (sendByteAux n (v >>> 1) ++ r) := by
          simp [sendByteAux, Nat.and_one_is_mod, h, normalPulse]
        rw [hs, pulseGroups_on_off _ _ _ (headOn_sendByteAux_append n _ r hr),
          ih (v >>> 1)]
        simp [hb, Nat.shiftRight_one, Nat.testBit_succ, Function.comp]
      · have hb : v.testBit 0 = true := by simp [Nat.testBit_zero, h]
        have hs : sendByteAux (n + 1) v ++ r =
            Ev.on 562 :: Ev.off 557 :: Ev.off 1120 ::
              (sendByteAux n (v >>> 1) ++ r) := by
          simp [sendByteAux, Nat.and_one_is_mod, h, normalPulse, bit1Pause]
        rw [hs, pulseGroups_on_off_off, ih (v >>> 1)]
        simp [hb, Nat.shiftRight_one, Nat.testBit_succ, Function.comp]

theorem headOn_sendByte_append (v : Nat) (r : List Ev) (hr : headOn r) :
    headOn (sendByte v ++ r) :=
  headOn_sendByteAux_append 8 v r hr

theorem pulseGroups_sendByte_append (v : Nat) (r : List Ev) (hr : headOn r) :
    pulseGroups (sendByte v ++ r) =
      (List.range 8).map (fun i => (562, if v.testBit i then 1677 else 557)) ++
        pulseGroups r :=
  pulseGroups_sendByteAux 8 r hr v

theorem pulseGroups_sendByte (v : Nat) :
    pulseGroups (sendByte v) =
      (List.range 8).map (fun i => (562, if v.testBit i then 1677 else 557)) := by
  have h := pulseGroups_sendByteAux 8 [] (by simp [headOn]) v
  simpa [pulseGroups] using h

theorem pulseGroups_sendCode (c : Nat) :
    pulseGroups (sendCode c) =
      (9000, 4500) ::
        ((List.range 8).map (fun i => (562, if ADDR.testBit i then 1677 else 557)) ++
          ((List.range 8).map
              (fun i => (562, if (cInv8 ADDR).testBit i then 1677 else 557)) ++
            ((List.range 8).map (fun i => (562, if c.testBit i then 1677 else 557)) ++
              ((List.range 8).map
                  (fun i => (562, if (cInv8 c).testBit i then 1677 else 557)) ++
                [(562, 557)])))) := by
  have h1 : headOn normalPulse := by simp [headOn, normalPulse]
  have h2 := headOn_sendByte_append (cInv8 c) _ h1
  have h3 := headOn_sendByte_append c _ h2
  have h4 := headOn_sendByte_append (cInv8 ADDR) _ h3
  show pulseGroups (Ev.on 9000 :: Ev.off 4500 ::
      (sendByte ADDR ++ (sendByte (cInv8 ADDR) ++
        (sendByte c ++ (sendByte (cInv8 c) ++ normalPulse))))) = _
  rw [pulseGroups_on_off _ _ _ (headOn_sendByte_append ADDR _ h4),
    pulseGroups_sendByte_append _ _ h4, pulseGroups_sendByte_append _ _ h3,
    pulseGroups_sendByte_append _ _ h2, pulseGroups_sendByte_append _ _ h1]
  rfl

/-! ### Decoding the data bits back out of a trace -/

theorem bitsOfGroups_bitGroups (bs : List Bool) :
    bitsOfGroups (bs.map (fun b => (562, if b then 1677 else 557))) = bs := by
  induction bs with
  | nil => rfl
  | cons b rest ih => cases b <;> simp [bitsOfGroups, ih]

theorem bitsOfGroups_append (a b : List (Nat × Nat)) :
    bitsOfGroups (a ++ b) = bitsOfGroups a ++ bitsOfGroups b := by
  induction a with
  | nil => rfl
  | cons g rest ih =>
      simp only [List.cons_append, bitsOfGroups]
      split_ifs <;> simp [ih]

theorem bitsOfGroups_skip (g : Nat × Nat) (l : List (Nat × Nat))
    (h1 : g ≠ (562, 557)) (h2 : g ≠ (562, 1677)) :
    bitsOfGroups (g :: l) = bitsOfGroups l := by
  simp [bitsOfGroups, h1, h2]

theorem bitsOfGroups_stop : bitsOfGroups [(562, 557)] = [false] := rfl

theorem bitsOfGroups_byte (v : Nat) :
    bitsOfGroups ((List.range 8).map (fun i => (562, if v.testBit i then 1677 else 557))) =
      (List.range 8).map v.testBit := by
  have h := bitsOfGroups_bitGroups ((List.range 8).map v.testBit)
  simpa [List.map_map, Function.comp] using h

theorem frameBits_eq (c : Nat) :
    frameBits c =
      (List.range 8).map ADDR.testBit ++
        ((List.range 8).map (cInv8 ADDR).testBit ++
          ((List.range 8).map c.testBit ++
            ((List.range 8).map (cInv8 c).testBit ++ [false]))) := by
  unfold frameBits
  rw [pulseGroups_sendCode, bitsOfGroups_skip _ _ (by decide) (by decide),
    bitsOfGroups_append, bitsOfGroups_append, bitsOfGroups_append,
    bitsOfGroups_append, bitsOfGroups_byte, bitsOfGroups_byte,
    bitsOfGroups_byte, bitsOfGroups_byte, bitsOfGroups_stop]

theorem byteVal_lsb : ∀ v < 256, byteVal ((List.range 8).map v.testBit) = v := by
  decide

theorem cInv8_eq_xor : ∀ v < 256, cInv8 v = v ^^^ 255 := by decide

theorem cInv8_lt : ∀ v < 256, cInv8 v < 256 := by decide

theorem testBit_eq_and_one (v : Nat) :
    v.testBit = fun i => decide ((v >>> i) &&& 1 = 1) := by
  funext i
  rw [Nat.testBit_to_div_mod, Nat.shiftRight_eq_div_pow, Nat.and_one_is_mod]

theorem sendByteAux_eq_specBits (n : Nat) :
    ∀ v, sendByteAux n v =
      ((List.range n).map (fun i => specBit (v.testBit i))).flatten := by
  induction n with
  | zero => intro v; rfl
  | succ n ih =>
      intro v
      rw [List.range_succ_eq_map]
      rcases Nat.mod_two_eq_zero_or_one v with h | h
      · have hb : v.testBit 0 = false := by simp [Nat.testBit_zero, h]
        simp [sendByteAux, Nat.and_one_is_mod, h, hb, specBit, normalPulse,
          Nat.shiftRight_one, ih (v / 2), Function.comp_def, Nat.testBit_succ]
      · have hb : v.testBit 0 = true := by simp [Nat.testBit_zero, h]
        simp [sendByteAux, Nat.and_one_is_mod, h, hb, specBit, normalPulse,
          bit1Pause, Nat.shiftRight_one, ih (v / 2), Function.comp_def,
          Nat.testBit_succ]

theorem sendByte_eq_specByte (v : Nat) : sendByte v = specByte v :=
  sendByteAux_eq_specBits 8 v

/-! ### Claim theorems -/

/-- C9: for every input value, the bit loop of `sendByte` runs exactly 8
times and stops (its counter goes 8,7,...,0, which the embedding renders
as structural recursion on that counter), so every byte contributes
exactly 8 carrier bursts; a full frame therefore carries exactly 32
data-bit bursts and, with the start marker and the stop burst, exactly 34
carrier-on bursts in total. -/
theorem sendByte_eight_bursts_frame_thirtyfour (v c : Nat) :
    onCount (sendByte v) = 8 ∧
    onCount (sendByte ADDR ++ (sendByte (cInv8 ADDR) ++
      (sendByte c ++ sendByte (cInv8 c)))) = 32 ∧
    onCount (sendCode c) = 34 := by
  have hb : ∀ w, onCount (sendByte w) = 8 := fun w => onCount_sendByteAux 8 w
  refine ⟨hb v, ?_, ?_⟩
  · simp only [onCount_append, hb]
  · simp only [sendCode, onCount_append, hb]
    decide

/-- C10: the stop burst of a full frame and of a repeat frame is emitted
by `normalPulse`, the same operation that emits a data-bit burst, so the
562 us stop burst is always followed by that operation's built-in 557 us
carrier-off delay before control returns to the caller: the last two
events of every full frame are exactly `normalPulse`, and the repeat
frame likewise embeds `normalPulse` (burst plus built-in 557 us off)
between its marker and the 56 ms post-delay. -/
theorem stop_burst_built_in_pause (c : Nat) :
    (sendCode c).drop ((sendCode c).length - 2) = normalPulse ∧
    normalPulse = [Ev.on 562, Ev.off 557] ∧
    repeatCode = [Ev.off 40000] ++ repeatPulse ++ (normalPulse ++ [Ev.off 56000]) := by
  refine ⟨?_, rfl, rfl⟩
  have h : sendCode c =
      (startPulse ++ sendByte ADDR ++ sendByte (cInv8 ADDR) ++ sendByte c ++
        sendByte (cInv8 c)) ++ normalPulse := by
    simp [sendCode, List.append_assoc]
  rw [h, List.length_append]
  have h2 : normalPulse.length = 2 := rfl
  rw [h2, Nat.add_sub_cancel, List.drop_left]

/-- C7 counterexample: with the integer division the formula denotes,
`1200000 / 38000 - 1` is 30, while the constant `TOP` in the source is
31, so `TOP` is not given by `clock_hz / frequency_hz - 1`. -/
theorem top_formula_counterexample :
    TOP = 31 ∧ (1200000 : Nat) / 38000 - 1 = 30 ∧
    TOP ≠ 1200000 / 38000 - 1 := by decide

/-- C7 amended: `TOP = 31` and `DUTY = 7` are fixed compile-time
constants; `TOP` equals the nearest integer to `clock_hz / frequency_hz`
minus one (not the truncated quotient minus one), giving an actual PWM
frequency of `1200000 / (TOP + 1) = 37500` Hz, within 2 percent of the
nominal 38 kHz; and the compare value satisfies
`4 * (DUTY + 1) = TOP + 1`, an exact 25 percent duty cycle. -/
theorem timer_constants :
    TOP = (1200000 + 38000 / 2) / 38000 - 1 ∧
    1200000 / (TOP + 1) = 37500 ∧
    4 * (DUTY + 1) = TOP + 1 ∧
    DUTY = (TOP + 1) / 4 - 1 ∧
    38000 - 1200000 / (TOP + 1) ≤ 2 * 38000 / 100 := by decide

theorem frameBytes_eq (c : Nat) (hc : c < 256) :
    frameBytes c = [ADDR, ADDR ^^^ 255, c, c ^^^ 255] := by
  have len8 : ∀ v : Nat, ((List.range 8).map v.testBit).length = 8 := by simp
  unfold frameBytes
  rw [frameBits_eq c]
  set l1 := (List.range 8).map ADDR.testBit with hl1
  set l2 := (List.range 8).map (cInv8 ADDR).testBit with hl2
  set l3 := (List.range 8).map c.testBit with hl3
  set l4 := (List.range 8).map (cInv8 c).testBit with hl4
  have d8 : (l1 ++ (l2 ++ (l3 ++ (l4 ++ [false])))).drop 8 =
      l2 ++ (l3 ++ (l4 ++ [false])) := List.drop_left' (len8 _)
  have d16 : (l1 ++ (l2 ++ (l3 ++ (l4 ++ [false])))).drop 16 =
      l3 ++ (l4 ++ [false]) := by
    rw [show (16 : Nat) = 8 + 8 from rfl, ← List.drop_drop, d8]
    exact List.drop_left' (len8 _)
  have d24 : (l1 ++ (l2 ++ (l3 ++ (l4 ++ [false])))).drop 24 =
      l4 ++ [false] := by
    rw [show (24 : Nat) = 16 + 8 from rfl, ← List.drop_drop, d16]
    exact List.drop_left' (len8 _)
  rw [d8, d16, d24, List.take_left' (len8 _), List.take_left' (len8 _),
    List.take_left' (len8 _), List.take_left' (len8 _)]
  rw [byteVal_lsb ADDR (by decide), byteVal_lsb (cInv8 ADDR) (by decide),
    byteVal_lsb c hc, byteVal_lsb (cInv8 c) (cInv8_lt c hc),
    show cInv8 ADDR = ADDR ^^^ 255 from by decide, cInv8_eq_xor c hc]

/-- C1: for every 8-bit command code, the full frame emitted by
`sendCode` is exactly: the start marker (9000 us burst, 4500 us pause),
then the four data bytes ADDR, bitwise inverse of ADDR, the command, and
its bitwise inverse, each as eight burst-pause bit encodings, and then
exactly one terminal stop burst with no data bit after it.  `specFrame`
is built from the specification text, so this is a refinement of the
spec frame layout by the code. -/
theorem sendCode_frame_structure (c : Nat) (hc : c < 256) :
    sendCode c = specFrame ADDR c := by
  unfold sendCode specFrame startPulse normalPulse
  rw [sendByte_eq_specByte, sendByte_eq_specByte, sendByte_eq_specByte,
    sendByte_eq_specByte, show cInv8 ADDR = ADDR ^^^ 0xFF from by decide,
    cInv8_eq_xor c hc]
  simp [List.append_assoc]

/-- C1 witness: the frame for command 0x02 (KEY1). -/
theorem sendCode_frame_structure_witness :
    (2 : Nat) < 256 ∧ sendCode 2 = specFrame ADDR 2 :=
  ⟨by decide, sendCode_frame_structure 2 (by decide)⟩

/-- C2: the byte transmitted after each data byte `v` of a frame is the
bitwise complement of `v` truncated to 8 bits: decoding the 32 data bits
of the frame gives the bytes `ADDR`, `ADDR ^^^ 0xFF`, the command, and
`command ^^^ 0xFF`; the value the code passes to `sendByte` for `~v` is
that bitwise complement for every 8-bit `v`; and for no 8-bit `v` does
the bitwise complement coincide with the arithmetic negation
`(256 - v) % 256`. -/
theorem inverse_bytes_bitwise_complement (c : Nat) (hc : c < 256) :
    frameBytes c = [ADDR, ADDR ^^^ 0xFF, c, c ^^^ 0xFF] ∧
    (∀ v, v < 256 → cInv8 v = v ^^^ 0xFF) ∧
    (∀ v, v < 256 → v ^^^ 0xFF ≠ (256 - v) % 256) :=
  ⟨frameBytes_eq c hc, cInv8_eq_xor, by decide⟩

/-- C2 witness: the frame for command 0x02 carries bytes
(4, 251, 2, 253). -/
theorem inverse_bytes_bitwise_complement_witness :
    (2 : Nat) < 256 ∧
    (frameBytes 2 = [ADDR, ADDR ^^^ 0xFF, 2, (2 : Nat) ^^^ 0xFF] ∧
      (∀ v, v < 256 → cInv8 v = v ^^^ 0xFF) ∧
      (∀ v, v < 256 → v ^^^ 0xFF ≠ (256 - v) % 256)) ∧
    ([ADDR, ADDR ^^^ 0xFF, 2, (2 : Nat) ^^^ 0xFF] = [4, 251, 2, 253]) :=
  ⟨by decide, inverse_bytes_bitwise_complement 2 (by decide), by decide⟩

/-- C3: `sendByte` emits the bits of its 8-bit argument least
significant bit first: the data bit decoded from the pulse group of
iteration i is `(v >>> i) &&& 1`, for i = 0..7. -/
theorem sendByte_lsb_first (v : Nat) (_hv : v < 256) :
    bitsOfGroups (pulseGroups (sendByte v)) =
      (List.range 8).map (fun i => decide ((v >>> i) &&& 1 = 1)) := by
  rw [pulseGroups_sendByte, bitsOfGroups_byte, testBit_eq_and_one]

/-- C3 witness: for v = 0b10110000 the emitted bit sequence is
0,0,0,0,1,1,0,1. -/
theorem sendByte_lsb_first_witness :
    (0b10110000 : Nat) < 256 ∧
    bitsOfGroups (pulseGroups (sendByte 0b10110000)) =
      (List.range 8).map (fun i => decide (((0b10110000 : Nat) >>> i) &&& 1 = 1)) ∧
    (List.range 8).map (fun i => decide (((0b10110000 : Nat) >>> i) &&& 1 = 1)) =
      [false, false, false, false, true, true, false, true] :=
  ⟨by decide, sendByte_lsb_first 0b10110000 (by decide), by decide⟩

/-- C4: every data bit of a byte is a pulse group whose carrier-on burst
lasts the same 562 us constant whatever the bit value; only the
carrier-off pause that follows differs, 557 us (approximately 562) after
a 0 bit and exactly 557 + 1120 us (approximately 1687) after a 1 bit:
the 1-bit pause is the 0-bit pause plus the fixed 1120 us extension. -/
theorem bit_timing (v : Nat) (_hv : v < 256) :
    pulseGroups (sendByte v) =
      (List.range 8).map (fun i => (562, if v.testBit i then 557 + 1120 else 557)) ∧
    ∀ g ∈ pulseGroups (sendByte v), g.1 = 562 ∧ (g.2 = 557 ∨ g.2 = 557 + 1120) := by
  have h := pulseGroups_sendByte v
  constructor
  · rw [h]
  · rw [h]
    intro g hg
    simp only [List.mem_map, List.mem_range] at hg
    obtain ⟨i, _, rfl⟩ := hg
    by_cases hb : v.testBit i <;> simp [hb]

/-- C4 witness at v = 5 (bits 1,0,1,0,0,0,0,0). -/
theorem bit_timing_witness :
    (5 : Nat) < 256 ∧
    (pulseGroups (sendByte 5) =
        (List.range 8).map (fun i => (562, if (5 : Nat).testBit i then 557 + 1120 else 557)) ∧
      ∀ g ∈ pulseGroups (sendByte 5), g.1 = 562 ∧ (g.2 = 557 ∨ g.2 = 557 + 1120)) :=
  ⟨by decide, bit_timing 5 (by decide)⟩

/-- C5 counterexample: `PINB = 250` reads as buttons 1 and 2 pressed
simultaneously (mask `0b101`), which matches none of the five known
single-button patterns; the switch then emits nothing, but as long as the
lines stay active the repeat `while` loop transmits repeat frames: with
the lines still active at the first repeat check, one full `repeatCode`
(two carrier bursts) is emitted, so the emission is not zero frames. -/
theorem unmapped_mask_emits_repeat_frames :
    scan 250 = 5 ∧ scan 250 ∉ ([1, 4, 8, 16, 32] : List Nat) ∧
    switchEmit (scan 250) = [] ∧
    repeatLoop [250, 255] = repeatCode ∧
    onCount (repeatLoop [250, 255]) = 2 := by decide

/-- C5 amended: when the sampled mask matches none of the five
single-button patterns, the switch emits no full data frame; repeat
frames are still transmitted by the repeat loop while the lines remain
active, and once the input lines read clear the repeat loop emits
nothing further and the iteration ends (back to sleep). -/
theorem unmapped_mask_no_data_frame (p q : Nat) (rest : List Nat)
    (hp : scan p ∉ ([1, 4, 8, 16, 32] : List Nat)) (hq : scan q = 0) :
    switchEmit (scan p) = [] ∧ repeatLoop (q :: rest) = [] := by
  exact ⟨switchEmit_unmapped hp, by simp [repeatLoop, hq]⟩

/-- C5 amended, witness at `PINB = 250` (buttons 1 and 2 down) with the
lines clear at the first repeat check. -/
theorem unmapped_mask_no_data_frame_witness :
    (scan 250 ∉ ([1, 4, 8, 16, 32] : List Nat)) ∧ scan 255 = 0 ∧
    (switchEmit (scan 250) = [] ∧ repeatLoop [255] = []) :=
  ⟨by decide, by decide, unmapped_mask_no_data_frame 250 255 [] (by decide) (by decide)⟩

/-! ### Repeat cadence -/

theorem timedBursts_append (a b : List Ev) : ∀ t,
    timedBursts (a ++ b) t = timedBursts a t ++ timedBursts b (t + duration a) := by
  induction a with
  | nil => intro t; simp [timedBursts, duration]
  | cons x rest ih =>
      intro t
      rcases x with d | d <;>
        simp [timedBursts, duration, ih, Nat.add_assoc]

theorem timedBursts_repeatCode (t : Nat) :
    timedBursts repeatCode t = [(t + 40000, 9000), (t + 51250, 562)] := by
  simp [repeatCode, repeatPulse, normalPulse, timedBursts]

theorem duration_repeatCode : duration repeatCode = 108369 := rfl

theorem markerTimes_repeat (n : Nat) : ∀ t,
    (timedBursts ((List.replicate n repeatCode).flatten) t).filterMap
        (fun b => if b.2 = 9000 then some b.1 else none) =
      (List.range n).map (fun k => t + 40000 + k * 108369) := by
  induction n with
  | zero => intro t; rfl
  | succ n ih =>
      intro t
      rw [List.replicate_succ, List.flatten_cons, timedBursts_append,
        timedBursts_repeatCode, duration_repeatCode, List.filterMap_append, ih,
        List.range_succ_eq_map]
      simp only [List.filterMap_cons, List.map_cons, List.map_map]
      norm_num
      intro k hk
      omega

theorem markerStarts_repeat (n : Nat) :
    markerStarts ((List.replicate n repeatCode).flatten) =
      (List.range n).map (fun k => 40000 + k * 108369) := by
  have h := markerTimes_repeat n 0
  simpa [markerStarts] using h

theorem repeatLoop_replicate (n p q : Nat) (hp : scan p ≠ 0) (hq : scan q = 0) :
    repeatLoop (List.replicate n p ++ [q]) = (List.replicate n repeatCode).flatten := by
  induction n with
  | zero => simp [repeatLoop, hq]
  | succ n ih => simp [List.replicate_succ, repeatLoop, hp, ih]

/-- C6: while the button lines stay active for n successive checks and
then clear, the repeat loop emits exactly n repeat frames and stops at
the first check after release; each repeat frame is the 9000 us burst
plus 2250 us pause repeat marker followed immediately by one stop burst
with no data bytes; the start times of successive repeat markers are
spaced by the fixed interval of 108369 us (approximately 108 ms), which
is the 40 ms inter-repeat delay plus the repeat frame's own 12369 us
duration plus the 56 ms post-repeat delay. -/
theorem repeat_cadence (n p q : Nat) (hp : scan p ≠ 0) (hq : scan q = 0) :
    repeatLoop (List.replicate n p ++ [q]) = (List.replicate n repeatCode).flatten ∧
    repeatCode = [Ev.off 40000] ++ (repeatPulse ++ (normalPulse ++ [Ev.off 56000])) ∧
    duration repeatCode = 40000 + duration (repeatPulse ++ normalPulse) + 56000 ∧
    duration repeatCode = 108369 ∧
    markerStarts (repeatLoop (List.replicate n p ++ [q])) =
      (List.range n).map (fun k => 40000 + k * 108369) := by
  have h := repeatLoop_replicate n p q hp hq
  exact ⟨h, rfl, rfl, rfl, by rw [h, markerStarts_repeat]⟩

/-- C6 witness: two held checks then release, markers at 40000 and
148369 us. -/
theorem repeat_cadence_witness :
    scan 250 ≠ 0 ∧ scan 255 = 0 ∧
    (repeatLoop (List.replicate 2 250 ++ [255]) = (List.replicate 2 repeatCode).flatten ∧
      repeatCode = [Ev.off 40000] ++ (repeatPulse ++ (normalPulse ++ [Ev.off 56000])) ∧
      duration repeatCode = 40000 + duration (repeatPulse ++ normalPulse) + 56000 ∧
      duration repeatCode = 108369 ∧
      markerStarts (repeatLoop (List.replicate 2 250 ++ [255])) =
        (List.range 2).map (fun k => 40000 + k * 108369)) :=
  ⟨by decide, by decide, repeat_cadence 2 250 255 (by decide) (by decide)⟩

/-! ### The main loop -/

theorem runSteps_repeating (n held q : Nat) (hh : scan held ≠ 0) (hq : scan q = 0) :
    runSteps .repeating (List.replicate n ⟨held, false⟩ ++ [⟨q, false⟩]) =
      (.sleeping, (List.replicate n repeatCode).flatten) := by
  induction n with
  | zero => simp [runSteps, step, hq]
  | succ n ih => simp [List.replicate_succ, runSteps, step, hh, ih]

/-- C8: the main loop is a never-ending cycle in the exact order: sleep,
then on a pin-change wake wait the fixed 1 ms debounce, then sample the
buttons and (only if a mapped command is found) emit one full frame,
then emit repeat frames while the lines remain active, then return to
sleep ready for the next wake; and with no input edge the machine stays
in the sleep state for an arbitrarily long input stream, emitting
nothing (no periodic wake, no polling). -/
theorem main_loop_cycle (p held q n : Nat) (hh : scan held ≠ 0) (hq : scan q = 0) :
    runSteps .sleeping
        (⟨0, true⟩ :: ⟨0, false⟩ :: ⟨p, false⟩ ::
          (List.replicate n ⟨held, false⟩ ++ [⟨q, false⟩])) =
      (.sleeping,
        Ev.off 1000 :: (switchEmit (scan p) ++ (List.replicate n repeatCode).flatten)) ∧
    (∀ inputs : List Input, (∀ i ∈ inputs, i.edge = false) →
      runSteps .sleeping inputs = (.sleeping, [])) := by
  constructor
  · have hr := runSteps_repeating n held q hh hq
    simp [runSteps, step, hr]
  · intro inputs
    induction inputs with
    | nil => intro _; rfl
    | cons i rest ih =>
        intro hin
        have he : i.edge = false := hin i (by simp)
        have hrest := ih (fun j hj => hin j (by simp [hj]))
        simp [runSteps, step, he, hrest]

/-- C8 witness: wake with button 1 (PINB = 254, mask 1), one held repeat
check (PINB = 250), then release (PINB = 255). -/
theorem main_loop_cycle_witness :
    scan 250 ≠ 0 ∧ scan 255 = 0 ∧
    (runSteps .sleeping
        (⟨0, true⟩ :: ⟨0, false⟩ :: ⟨254, false⟩ ::
          (List.replicate 1 ⟨250, false⟩ ++ [⟨255, false⟩])) =
      (.sleeping,
        Ev.off 1000 :: (switchEmit (scan 254) ++ (List.replicate 1 repeatCode).flatten)) ∧
    (∀ inputs : List Input, (∀ i ∈ inputs, i.edge = false) →
      runSteps .sleeping inputs = (.sleeping, []))) :=
  ⟨by decide, by decide, main_loop_cycle 254 250 255 1 (by decide) (by decide)⟩

end TinyRemote
